import Mathlib

/-!
# Verification of the sbomlyze analysis core

Shallow embedding of the sbomlyze SBOM-diff tool (Go) in Lean 4.

Modelling conventions:
* Go `string` values are embedded as `List Char` (`GoStr`); the delimiters the
  code inspects are ASCII, so byte indices and rune indices coincide on the
  inputs of interest.
* Go `map[string]string` values are embedded as association lists
  (`List (GoStr × GoStr)`); a Go map has unique keys, which appears as a
  `Nodup` hypothesis on the key list where a proof needs it.  Go map iteration
  order is unspecified; every property proved below is insensitive to the
  iteration order, which the embedding fixes to list order.
* Go `sort.Strings` / `sort.Slice` are embedded with `List.insertionSort`
  (the sorted result is unique because the keys being compared are distinct
  or interchangeable in every use below).
-/

abbrev GoStr := List Char

/-- Conversion of a Lean string literal to the `List Char` Go-string model. -/
def gs (s : String) : GoStr := s.data

/-- ASCII fragment of Go `unicode.IsSpace`, the cases relevant to
`strings.TrimSpace` on the identifiers this code processes. -/
def isSpaceChar (c : Char) : Bool :=
  c == ' ' || c == '\t' || c == '\n' || c == '\x0b' || c == '\x0c' || c == '\r'

/-- Go `strings.TrimSpace`: drop leading and trailing whitespace. -/
def trimList (s : GoStr) : GoStr :=
  ((s.dropWhile isSpaceChar).reverse.dropWhile isSpaceChar).reverse

/-- Go `strings.ToLower` on one character (ASCII range, the only range the
normalizer's comparisons depend on). -/
def toLowerChar (c : Char) : Char :=
  if 65 ≤ c.toNat ∧ c.toNat ≤ 90 then Char.ofNat (c.toNat + 32) else c

/-- Go `strings.ToLower` on a string. -/
def toLowerStr (s : GoStr) : GoStr := s.map toLowerChar

/-- Go `strings.HasPrefix`. -/
def hasPrefixG (pre s : GoStr) : Bool := s.take pre.length == pre

/-- `purl = purl[:strings.LastIndex(purl, string ch)]` guarded by presence:
drop the suffix starting at the final occurrence of `ch`, if any. -/
def dropFromLast (ch : Char) (s : GoStr) : GoStr :=
  if ch ∈ s then ((s.reverse.dropWhile (fun c => c != ch)).drop 1).reverse else s

/-- `normalizePURL` (main package): cut at the first `#`, then at the first
`?`, then drop from the final `@`.  The identity package's `NormalizePURL`
is the same function (pinned by `identity_test.go`). -/
def normalizePURL (purl : GoStr) : GoStr :=
  if purl = [] then []
  else
    let p1 := purl.takeWhile (fun ch => ch != '#')
    let p2 := p1.takeWhile (fun ch => ch != '?')
    dropFromLast '@' p2

/-- Modelled from the spec's words for claim C1: "the PURL truncated at the
first `#` or `?` (whichever comes first, if present) and then truncated at
the final `@` (if any)".  Kept separate from `normalizePURL`, which is the
code's sequential formulation, so the two can be compared. -/
def claimNormalizePURL (purl : GoStr) : GoStr :=
  dropFromLast '@' (purl.takeWhile (fun ch => ch != '#' && ch != '?'))

/-- `normalizeCPE` (main package; identical to `identity.NormalizeCPE` as
pinned by `identity_test.go`): extract `cpe:<vendor>:<product>`. -/
def normalizeCPE (cpe : GoStr) : GoStr :=
  if cpe = [] then []
  else if hasPrefixG (gs "cpe:2.3:") cpe then
    let parts := cpe.splitOn ':'
    if parts.length ≥ 5 then
      let vendor := parts.getD 3 []
      let product := parts.getD 4 []
      if vendor ≠ [] ∧ vendor ≠ gs "*" ∧ product ≠ [] ∧ product ≠ gs "*" then
        gs "cpe:" ++ vendor ++ gs ":" ++ product
      else []
    else []
  else if hasPrefixG (gs "cpe:/") cpe then
    let rest := cpe.drop 5
    let parts := rest.splitOn ':'
    if parts.length ≥ 3 then
      let vendor := parts.getD 1 []
      let product := parts.getD 2 []
      if vendor ≠ [] ∧ product ≠ [] then
        gs "cpe:" ++ vendor ++ gs ":" ++ product
      else []
    else []
  else []

/-- The CPE loop of `computeComponentID`: first CPE whose normalization is
non-empty, else empty. -/
def firstCPEID : List GoStr → GoStr
  | [] => []
  | cpe :: rest =>
    let normalized := normalizeCPE cpe
    if normalized ≠ [] then normalized else firstCPEID rest

/-- The canonical component record (`sbom.Component`).  Field names follow
the Go struct; `namespace` and `type` are Lean keywords and appear as
`nspace` and `typ`. -/
structure Component where
  id : GoStr := []
  name : GoStr := []
  version : GoStr := []
  purl : GoStr := []
  licenses : List GoStr := []
  cpes : List GoStr := []
  hashes : List (GoStr × GoStr) := []
  dependencies : List GoStr := []
  bomRef : GoStr := []
  spdxId : GoStr := []
  nspace : GoStr := []
  supplier : GoStr := []
  language : GoStr := []
  foundBy : GoStr := []
  typ : GoStr := []
  rawJson : GoStr := []
  deriving DecidableEq, Repr, Inhabited

/-- `computeComponentID` (main package) / `identity.ComputeID` applied to
`Component.ToIdentity` (which projects exactly the purl, cpes, bomRef,
spdxId, namespace and name fields): the identity precedence chain. -/
def computeComponentID (c : Component) : GoStr :=
  if c.purl ≠ [] then normalizePURL c.purl
  else
    let cpeID := firstCPEID c.cpes
    if cpeID ≠ [] then cpeID
    else if c.bomRef ≠ [] then gs "ref:" ++ c.bomRef
    else if c.spdxId ≠ [] then gs "ref:" ++ c.spdxId
    else if c.nspace ≠ [] then c.nspace ++ gs "/" ++ c.name
    else c.name

/-- `normalizeString` (sbom package): trim whitespace then lowercase. -/
def normalizeString (s : GoStr) : GoStr := toLowerStr (trimList s)

/-- `normalizeLicense` (sbom package): trim, filter the sentinel values,
rewrite a lowercase `mit` to `MIT`, otherwise preserve case. -/
def normalizeLicense (s : GoStr) : GoStr :=
  let t := trimList s
  let lower := toLowerStr t
  if lower = gs "noassertion" ∨ lower = gs "none" ∨ lower = gs "unknown" then []
  else if lower = gs "mit" then gs "MIT"
  else t

/-- The license loop of `NormalizeComponent`: normalize each license and
keep the non-empty results, in order. -/
def normLicenses : List GoStr → List GoStr
  | [] => []
  | lic :: rest =>
    let n := normalizeLicense lic
    if n ≠ [] then n :: normLicenses rest else normLicenses rest

/-- The `normalized` record built at the top of `sbom.NormalizeComponent`:
every field of the Go struct literal, with the fields the literal omits
(`Language`, `FoundBy`, `Type`) at their zero value. -/
def normalizedBase (c : Component) : Component :=
  { id := c.id
    name := normalizeString c.name
    version := trimList c.version
    purl := trimList c.purl
    licenses := normLicenses c.licenses
    cpes := c.cpes
    hashes := c.hashes
    dependencies := c.dependencies
    bomRef := trimList c.bomRef
    spdxId := trimList c.spdxId
    nspace := trimList c.nspace
    supplier := trimList c.supplier
    language := []
    foundBy := []
    typ := []
    rawJson := c.rawJson }

/-- `sbom.NormalizeComponent`: build the normalized record, then recompute
the identity if it was empty.  `identity.ComputeID ∘ Component.ToIdentity`
is `computeComponentID` (the in-repo main-package duplicate of the identity
package, pinned by `identity_test.go`). -/
def NormalizeComponent (c : Component) : Component :=
  let normalized := normalizedBase c
  if normalized.id = [] then { normalized with id := computeComponentID normalized }
  else normalized

/-- `sbom.NormalizeComponents`: normalize a slice of components. -/
def NormalizeComponents (comps : List Component) : List Component :=
  comps.map NormalizeComponent

theorem takeWhile_takeWhile_fuse (p q : Char → Bool) (l : List Char) :
    (l.takeWhile p).takeWhile q = l.takeWhile (fun a => p a && q a) := by
  induction l with
  | nil => rfl
  | cons a t ih =>
    by_cases hp : p a <;> by_cases hq : q a <;>
      simp [List.takeWhile_cons, hp, hq, ih]

/-- C1. For every component whose PURL is non-empty, the computed identity
equals the PURL truncated at the first `#` or `?` (whichever comes first, if
present) and then truncated at the final `@` (if any), regardless of the
values of cpes, bom_ref, spdx_id, namespace, and name. -/
theorem purl_identity (c : Component) (h : c.purl ≠ []) :
    computeComponentID c = claimNormalizePURL c.purl := by
  unfold computeComponentID
  rw [if_pos h]
  unfold normalizePURL claimNormalizePURL
  rw [if_neg h]
  simp only []
  rw [takeWhile_takeWhile_fuse]

/-- Witness for C1 at a concrete PURL carrying a version, a qualifier and a
fragment, with all the other identifier fields populated. -/
theorem purl_identity_witness :
    computeComponentID
        { purl := gs "pkg:npm/lodash@4.17.21?vcs_url=git://github.com#lib/index.js",
          cpes := [gs "cpe:2.3:a:other:other:1.0:*:*:*:*:*:*:*"],
          bomRef := gs "b", spdxId := gs "s", nspace := gs "ns",
          name := gs "different-name" } =
      claimNormalizePURL (gs "pkg:npm/lodash@4.17.21?vcs_url=git://github.com#lib/index.js") ∧
    computeComponentID
        { purl := gs "pkg:npm/lodash@4.17.21?vcs_url=git://github.com#lib/index.js",
          cpes := [gs "cpe:2.3:a:other:other:1.0:*:*:*:*:*:*:*"],
          bomRef := gs "b", spdxId := gs "s", nspace := gs "ns",
          name := gs "different-name" } = gs "pkg:npm/lodash" := by
  refine ⟨purl_identity _ (by decide), by decide⟩

/-! ### Character-level facts for the normalizer -/

theorem char_eq_iff_toNat (a b : Char) : a = b ↔ a.toNat = b.toNat := by
  constructor
  · intro h; rw [h]
  · intro h
    have : a.val = b.val := by
      apply UInt32.ext
      simpa [Char.toNat] using h
    exact Char.ext this

theorem toNat_ofNat_valid (n : Nat) (h : n.isValidChar) : (Char.ofNat n).toNat = n := by
  unfold Char.ofNat
  split
  · rfl
  · contradiction

theorem toLowerChar_toNat (c : Char) (h : 65 ≤ c.toNat ∧ c.toNat ≤ 90) :
    (toLowerChar c).toNat = c.toNat + 32 := by
  unfold toLowerChar
  rw [if_pos h]
  exact toNat_ofNat_valid _ (Or.inl (by omega))

theorem toLowerChar_idem (c : Char) : toLowerChar (toLowerChar c) = toLowerChar c := by
  by_cases h : 65 ≤ c.toNat ∧ c.toNat ≤ 90
  · have hl := toLowerChar_toNat c h
    unfold toLowerChar
    rw [if_pos h]
    rw [show Char.ofNat (c.toNat + 32) = toLowerChar c from by unfold toLowerChar; rw [if_pos h]]
    rw [if_neg (by omega)]
  · unfold toLowerChar
    rw [if_neg h, if_neg h]

theorem toNat_le_of_isSpaceChar (c : Char) (h : isSpaceChar c = true) : c.toNat ≤ 32 := by
  unfold isSpaceChar at h
  simp only [Bool.or_eq_true, beq_iff_eq] at h
  rcases h with ((((h | h) | h) | h) | h) | h <;> subst h <;> decide

theorem isSpaceChar_false_of_ge (c : Char) (h : 65 ≤ c.toNat) : isSpaceChar c = false := by
  by_contra hc
  have := toNat_le_of_isSpaceChar c (by revert hc; cases isSpaceChar c <;> simp)
  omega

theorem isSpaceChar_toLowerChar (c : Char) : isSpaceChar (toLowerChar c) = isSpaceChar c := by
  by_cases h : 65 ≤ c.toNat ∧ c.toNat ≤ 90
  · rw [isSpaceChar_false_of_ge c h.1,
      isSpaceChar_false_of_ge _ (by rw [toLowerChar_toNat c h]; omega)]
  · unfold toLowerChar
    rw [if_neg h]

/-! ### Trim and lowercase algebra -/

theorem dropWhile_trailing_comm (p : Char → Bool) (l : List Char) :
    ((l.reverse.dropWhile p).reverse).dropWhile p =
    ((l.dropWhile p).reverse.dropWhile p).reverse := by
  induction l with
  | nil => rfl
  | cons a t ih =>
    have hrc : (a :: t).reverse = t.reverse ++ [a] := List.reverse_cons a t
    by_cases hp : p a
    · by_cases he : (t.reverse.dropWhile p).isEmpty
      · have ht : t.dropWhile p = [] := by
          rw [List.dropWhile_eq_nil_iff]
          intro x hx
          exact List.dropWhile_eq_nil_iff.mp (List.isEmpty_iff.mp he) x
            (List.mem_reverse.mpr hx)
        have h1 : (a :: t).reverse.dropWhile p = [] := by
          rw [hrc, List.dropWhile_append, if_pos he]
          simp [List.dropWhile_cons, hp]
        have h2 : (a :: t).dropWhile p = [] := by
          rw [List.dropWhile_cons, if_pos hp, ht]
        rw [h1, h2]
        rfl
      · have h1 : (a :: t).reverse.dropWhile p = t.reverse.dropWhile p ++ [a] := by
          rw [hrc, List.dropWhile_append, if_neg he]
        have h2 : (a :: t).dropWhile p = t.dropWhile p := by
          rw [List.dropWhile_cons, if_pos hp]
        rw [h1, h2, List.reverse_append]
        simp only [List.reverse_cons, List.reverse_nil, List.nil_append, List.singleton_append]
        rw [List.dropWhile_cons, if_pos hp, ih]
    · have h2 : (a :: t).dropWhile p = a :: t := by
        rw [List.dropWhile_cons, if_neg hp]
      rw [h2]
      by_cases he : (t.reverse.dropWhile p).isEmpty
      · have h1 : (a :: t).reverse.dropWhile p = [a] := by
          rw [hrc, List.dropWhile_append, if_pos he, List.dropWhile_cons, if_neg hp]
        rw [h1]
        simp [List.dropWhile_cons, hp]
      · have h1 : (a :: t).reverse.dropWhile p = t.reverse.dropWhile p ++ [a] := by
          rw [hrc, List.dropWhile_append, if_neg he]
        rw [h1, List.reverse_append]
        simp only [List.reverse_cons, List.reverse_nil, List.nil_append, List.singleton_append]
        rw [List.dropWhile_cons, if_neg hp]

theorem trimList_idem (s : GoStr) : trimList (trimList s) = trimList s := by
  unfold trimList
  rw [dropWhile_trailing_comm, List.dropWhile_idempotent, List.reverse_reverse,
    dropWhile_trailing_comm, List.dropWhile_idempotent]

theorem toLowerStr_idem (s : GoStr) : toLowerStr (toLowerStr s) = toLowerStr s := by
  unfold toLowerStr
  rw [List.map_map]
  congr 1
  funext c
  exact toLowerChar_idem c

theorem dropWhile_space_map_toLower (l : GoStr) :
    (l.map toLowerChar).dropWhile isSpaceChar =
    (l.dropWhile isSpaceChar).map toLowerChar := by
  rw [List.dropWhile_map]
  have hc : isSpaceChar ∘ toLowerChar = isSpaceChar := funext isSpaceChar_toLowerChar
  rw [hc]

theorem trimList_map_toLower (s : GoStr) :
    trimList (toLowerStr s) = toLowerStr (trimList s) := by
  unfold trimList toLowerStr
  rw [dropWhile_space_map_toLower, ← List.map_reverse, dropWhile_space_map_toLower,
    ← List.map_reverse]

theorem normalizeString_idem (s : GoStr) :
    normalizeString (normalizeString s) = normalizeString s := by
  unfold normalizeString
  rw [trimList_map_toLower, trimList_idem, toLowerStr_idem]

theorem normalizeLicense_idem (s : GoStr) :
    normalizeLicense (normalizeLicense s) = normalizeLicense s := by
  have htrim := trimList_idem s
  unfold normalizeLicense
  by_cases h1 : toLowerStr (trimList s) = gs "noassertion" ∨
      toLowerStr (trimList s) = gs "none" ∨ toLowerStr (trimList s) = gs "unknown"
  · rw [if_pos h1]
    decide
  · rw [if_neg h1]
    by_cases h2 : toLowerStr (trimList s) = gs "mit"
    · rw [if_pos h2]
      decide
    · rw [if_neg h2, htrim, if_neg h1, if_neg h2]

theorem normLicenses_idem (ls : List GoStr) :
    normLicenses (normLicenses ls) = normLicenses ls := by
  induction ls with
  | nil => rfl
  | cons lic rest ih =>
    show normLicenses (normLicenses (lic :: rest)) = normLicenses (lic :: rest)
    rw [normLicenses]
    by_cases h : normalizeLicense lic ≠ []
    · rw [if_pos h, normLicenses, normalizeLicense_idem, if_pos h, ih]
    · rw [if_neg h, ih]

theorem computeComponentID_update_id (c : Component) (y : GoStr) :
    computeComponentID { c with id := y } = computeComponentID c := rfl

theorem normalizedBase_stable (c : Component) (y : GoStr) :
    normalizedBase { normalizedBase c with id := y } = { normalizedBase c with id := y } := by
  simp [normalizedBase, normalizeString_idem, trimList_idem, normLicenses_idem]

theorem NormalizeComponent_eq_update (c : Component) :
    NormalizeComponent c =
      { normalizedBase c with
        id := if (normalizedBase c).id = [] then computeComponentID (normalizedBase c)
              else (normalizedBase c).id } := by
  unfold NormalizeComponent
  split
  · next h => rw [if_pos h]
  · next h => rw [if_neg h]

/-- C8. Component normalization is idempotent: `normalize (normalize C) =
normalize C` for every component, covering the name trim/lower-casing, the
license sentinel filtering and `mit → MIT` rewrite, and the conditional
identity recomputation. -/
theorem NormalizeComponent_idem (c : Component) :
    NormalizeComponent (NormalizeComponent c) = NormalizeComponent c := by
  rw [NormalizeComponent_eq_update c, NormalizeComponent_eq_update, normalizedBase_stable]
  simp only [computeComponentID_update_id]
  by_cases h : (normalizedBase c).id = []
  · rw [if_pos h]
    by_cases h2 : computeComponentID (normalizedBase c) = []
    · simp [h2]
    · simp [h2]
  · rw [if_neg h]
    simp [h]

/-- C10. `NormalizeComponent` returns a component whose language, found_by,
and type fields are empty regardless of their input values (the
Syft-derived annotations are discarded), while hashes, dependencies, cpes,
and raw_json are passed through unchanged. -/
theorem NormalizeComponent_frame (c : Component) :
    (NormalizeComponent c).language = [] ∧ (NormalizeComponent c).foundBy = [] ∧
    (NormalizeComponent c).typ = [] ∧ (NormalizeComponent c).hashes = c.hashes ∧
    (NormalizeComponent c).dependencies = c.dependencies ∧
    (NormalizeComponent c).cpes = c.cpes ∧ (NormalizeComponent c).rawJson = c.rawJson := by
  rw [NormalizeComponent_eq_update c]
  simp [normalizedBase]

/-! ### Drift classification (`internal/analysis/drift.go`) -/

/-- `analysis.HashDiff`: changes in hash values.  `changed` pairs an
algorithm with its before/after values (`HashChange`). -/
structure HashDiff where
  added : List (GoStr × GoStr)
  removed : List (GoStr × GoStr)
  changed : List (GoStr × GoStr × GoStr)
  deriving DecidableEq, Repr

/-- `(*HashDiff).IsEmpty`: no added, removed or changed hashes. -/
def HashDiff.IsEmpty (h : HashDiff) : Bool :=
  h.added.length == 0 && h.removed.length == 0 && h.changed.length == 0

/-- `analysis.DiffHashes`: the `range after` loop fills `added` (algorithm
absent from `before`) and `changed` (present in both with a different
value); the `range before` loop fills `removed`. -/
def DiffHashes (before after : List (GoStr × GoStr)) : HashDiff :=
  let added := after.filter (fun p => (before.lookup p.1).isNone)
  let changed := after.filterMap (fun p =>
    match before.lookup p.1 with
    | some beforeHash => if beforeHash ≠ p.2 then some (p.1, beforeHash, p.2) else none
    | none => none)
  let removed := before.filter (fun p => (after.lookup p.1).isNone)
  { added := added, removed := removed, changed := changed }

/-- Byte-wise lexicographic order on strings: Go's `<` on `string`, used by
`sort.Strings` and the `sort.Slice` comparators. -/
def goStrLe : GoStr → GoStr → Bool
  | [], _ => true
  | _ :: _, [] => false
  | a :: as, b :: bs =>
    if a.toNat < b.toNat then true
    else if b.toNat < a.toNat then false
    else goStrLe as bs

/-- `analysis.EqualSlices` / `sbom.equalSlices`: equal length and equal
sorted copies (order-independent multiset equality). -/
def EqualSlices (a b : List GoStr) : Bool :=
  a.length == b.length &&
    (a.insertionSort (fun x y => goStrLe x y = true) ==
     b.insertionSort (fun x y => goStrLe x y = true))

/-- Drift type string constants of `drift.go`. -/
def DriftTypeNone : GoStr := gs "none"

def DriftTypeVersion : GoStr := gs "version"

def DriftTypeIntegrity : GoStr := gs "integrity"

def DriftTypeMetadata : GoStr := gs "metadata"

/-- `analysis.DriftInfo`. -/
structure DriftInfo where
  typ : GoStr
  hashChanges : Option HashDiff := none
  versionFrom : GoStr := []
  versionTo : GoStr := []
  licensesDiff : List GoStr := []
  deriving DecidableEq, Repr

/-- `analysis.ClassifyDrift`: compute version change, hash diff and license
diff, then classify with priority integrity > version > metadata > none.
The license diff iterates Go map sets; the embedding iterates the
deduplicated lists (same contents). -/
def ClassifyDrift (before after : Component) : DriftInfo :=
  let versionChanged := before.version ≠ after.version
  let hashDiff := DiffHashes before.hashes after.hashes
  let licensesDiff :=
    if ¬ (EqualSlices before.licenses after.licenses = true) then
      (after.licenses.dedup.filter (fun lic => ¬ lic ∈ before.licenses)).map
        (fun lic => '+' :: lic) ++
      (before.licenses.dedup.filter (fun lic => ¬ lic ∈ after.licenses)).map
        (fun lic => '-' :: lic)
    else []
  let base : DriftInfo :=
    { typ := DriftTypeNone
      hashChanges := if ¬ (hashDiff.IsEmpty = true) then some hashDiff else none
      versionFrom := if versionChanged then before.version else []
      versionTo := if versionChanged then after.version else []
      licensesDiff := licensesDiff }
  if ¬ (hashDiff.IsEmpty = true) ∧ ¬ versionChanged then { base with typ := DriftTypeIntegrity }
  else if versionChanged then { base with typ := DriftTypeVersion }
  else if licensesDiff.length > 0 then { base with typ := DriftTypeMetadata }
  else base

/-- `sbom.CompareComponents`: one change string per differing field.  The
exact Go `fmt.Sprintf` renderings are abbreviated; only presence matters
downstream. -/
def CompareComponents (before after : Component) : List GoStr :=
  (if before.version ≠ after.version then
    [gs "version: " ++ before.version ++ gs " -> " ++ after.version] else []) ++
  (if ¬ (EqualSlices before.licenses after.licenses = true) then
    [gs "licenses changed"] else []) ++
  before.hashes.filterMap (fun p =>
    match after.hashes.lookup p.1 with
    | some newHash =>
      if p.2 ≠ newHash then
        some (gs "hash[" ++ p.1 ++ gs "]: " ++ p.2 ++ gs " -> " ++ newHash)
      else none
    | none => none)

/-! ### Association-list facts (Go maps have unique keys) -/

theorem lookup_of_mem_nodup {α : Type} (k : GoStr) (v : α) (l : List (GoStr × α))
    (h : (k, v) ∈ l) (hnd : (l.map Prod.fst).Nodup) : l.lookup k = some v := by
  induction l with
  | nil => simp at h
  | cons p t ih =>
    simp only [List.map_cons, List.nodup_cons] at hnd
    rcases List.mem_cons.1 h with h | h
    · subst h; simp [List.lookup]
    · have hk : k ≠ p.1 := by
        rintro rfl
        exact hnd.1 (List.mem_map.mpr ⟨(p.1, v), h, rfl⟩)
      simp [List.lookup, beq_eq_false_iff_ne.2 (fun hh => hk (by simpa using hh)),
        ih h hnd.2]

theorem mem_of_lookup {α : Type} (k : GoStr) (v : α) (l : List (GoStr × α))
    (h : l.lookup k = some v) : (k, v) ∈ l := by
  induction l with
  | nil => simp [List.lookup] at h
  | cons p t ih =>
    rw [List.lookup] at h
    split at h
    · next heq =>
      simp only [Option.some.injEq] at h
      have hk : k = p.1 := by simpa [beq_iff_eq] using heq
      have hp : p = (k, v) := by cases p; simp_all
      rw [hp]; exact List.mem_cons_self _ _
    · exact List.mem_cons_of_mem _ (ih h)

theorem DiffHashes_IsEmpty_iff (before after : List (GoStr × GoStr))
    (hb : (before.map Prod.fst).Nodup) (ha : (after.map Prod.fst).Nodup) :
    (DiffHashes before after).IsEmpty = true ↔
      ∀ k, before.lookup k = after.lookup k := by
  unfold DiffHashes HashDiff.IsEmpty
  simp only [Bool.and_eq_true, beq_iff_eq, List.length_eq_zero, List.filter_eq_nil_iff,
    List.filterMap_eq_nil_iff]
  constructor
  · rintro ⟨⟨hadd, hrem⟩, hchg⟩ k
    cases hak : after.lookup k with
    | some v =>
      have hmem := mem_of_lookup k v after hak
      have h1 := hadd (k, v) hmem
      cases hbk : before.lookup k with
      | some bv =>
        have h2 := hchg (k, v) hmem
        rw [hbk] at h2
        simp only [ite_eq_right_iff] at h2
        by_cases hbv : bv = v
        · rw [hbv]
        · exact absurd (h2 (by simpa using hbv)) (by simp)
      | none => rw [hbk] at h1; simp at h1
    | none =>
      cases hbk : before.lookup k with
      | some bv =>
        have hmem := mem_of_lookup k bv before hbk
        have h3 := hrem (k, bv) hmem
        rw [hak] at h3
        simp at h3
      | none => rfl
  · intro hall
    refine ⟨⟨?_, ?_⟩, ?_⟩
    · intro p hp
      have := lookup_of_mem_nodup p.1 p.2 after (by simpa using hp) ha
      rw [hall p.1, this]
      simp
    · intro p hp
      have := lookup_of_mem_nodup p.1 p.2 before (by simpa using hp) hb
      rw [← hall p.1, this]
      simp
    · intro p hp
      have := lookup_of_mem_nodup p.1 p.2 after (by simpa using hp) ha
      rw [hall p.1, this]
      simp

/-- C2. For matched components, the classified drift type is `integrity`
iff the hash maps are unequal (some algorithm added, removed, or changed)
and the version did not change; with a version change it is never
`integrity`, and licenses play no role in the classification as
`integrity`. -/
theorem drift_integrity_iff (b a : Component)
    (hb : (b.hashes.map Prod.fst).Nodup) (ha : (a.hashes.map Prod.fst).Nodup) :
    (ClassifyDrift b a).typ = DriftTypeIntegrity ↔
      (¬ ∀ k, b.hashes.lookup k = a.hashes.lookup k) ∧ b.version = a.version := by
  have hiff := DiffHashes_IsEmpty_iff b.hashes a.hashes hb ha
  unfold ClassifyDrift
  by_cases h1 : ¬ ((DiffHashes b.hashes a.hashes).IsEmpty = true) ∧ ¬ (b.version ≠ a.version)
  · rw [if_pos h1]
    exact iff_of_true rfl ⟨fun hall => h1.1 (hiff.mpr hall), not_not.mp h1.2⟩
  · rw [if_neg h1]
    by_cases h2 : b.version ≠ a.version
    · rw [if_pos h2]
      refine iff_of_false (fun hx => ?_) (fun hrhs => h2 hrhs.2)
      exact absurd (show DriftTypeVersion = DriftTypeIntegrity from hx) (by decide)
    · rw [if_neg h2]
      have hIsE : (DiffHashes b.hashes a.hashes).IsEmpty = true := by
        by_contra hx
        exact h1 ⟨hx, h2⟩
      refine iff_of_false (fun hx => ?_) (fun hrhs => hrhs.1 (hiff.mp hIsE))
      rw [apply_ite DriftInfo.typ] at hx
      rcases ite_eq_iff.mp hx with ⟨_, hx'⟩ | ⟨_, hx'⟩
      · exact absurd (show DriftTypeMetadata = DriftTypeIntegrity from hx') (by decide)
      · exact absurd (show DriftTypeNone = DriftTypeIntegrity from hx') (by decide)

/-- Witness for C2: a concrete pair with the same version, a changed
license list, and a changed SHA256 value classifies as integrity drift. -/
theorem drift_integrity_iff_witness :
    (ClassifyDrift
        { name := gs "x", version := gs "1.0", hashes := [(gs "SHA256", gs "abc")],
          licenses := [gs "MIT"] }
        { name := gs "x", version := gs "1.0", hashes := [(gs "SHA256", gs "def")],
          licenses := [gs "Apache-2.0"] }).typ = DriftTypeIntegrity :=
  (drift_integrity_iff _ _ (by decide) (by decide)).mpr
    ⟨fun hall => absurd (hall (gs "SHA256")) (by decide), rfl⟩

theorem mem_iff_of_EqualSlices (x y : List GoStr) (h : EqualSlices x y = true)
    (s : GoStr) : s ∈ x ↔ s ∈ y := by
  unfold EqualSlices at h
  simp only [Bool.and_eq_true, beq_iff_eq] at h
  have px := List.perm_insertionSort (fun u v => goStrLe u v = true) x
  have py := List.perm_insertionSort (fun u v => goStrLe u v = true) y
  rw [← px.mem_iff (a := s), h.2, py.mem_iff]

/-- Counterexample to C3: versions equal, every algorithm present in both
hash maps has the same value, the license lists differ as sets, but
`before` carries an `MD5` entry that `after` lacks — `ClassifyDrift`
returns integrity, not metadata (added/removed algorithms make the hash
diff non-empty). -/
theorem drift_metadata_claim_counterexample :
    ({ name := gs "x", version := gs "1.0",
       hashes := [(gs "SHA256", gs "aa"), (gs "MD5", gs "bb")],
       licenses := [gs "MIT"] } : Component).version =
      ({ name := gs "x", version := gs "1.0", hashes := [(gs "SHA256", gs "aa")],
         licenses := [gs "Apache-2.0"] } : Component).version ∧
    (∀ p ∈ [(gs "SHA256", gs "aa"), (gs "MD5", gs "bb")],
      ∀ q ∈ [(gs "SHA256", gs "aa")],
        Prod.fst p = Prod.fst q → Prod.snd p = Prod.snd q) ∧
    (∃ l ∈ [gs "Apache-2.0"], l ∉ [gs "MIT"]) ∧
    (ClassifyDrift
        { name := gs "x", version := gs "1.0",
          hashes := [(gs "SHA256", gs "aa"), (gs "MD5", gs "bb")],
          licenses := [gs "MIT"] }
        { name := gs "x", version := gs "1.0", hashes := [(gs "SHA256", gs "aa")],
          licenses := [gs "Apache-2.0"] }).typ = DriftTypeIntegrity ∧
    (ClassifyDrift
        { name := gs "x", version := gs "1.0",
          hashes := [(gs "SHA256", gs "aa"), (gs "MD5", gs "bb")],
          licenses := [gs "MIT"] }
        { name := gs "x", version := gs "1.0", hashes := [(gs "SHA256", gs "aa")],
          licenses := [gs "Apache-2.0"] }).typ ≠ DriftTypeMetadata := by
  decide

/-- C3 amended: for a matched pair with equal versions, the drift type is
metadata when the license lists differ as sets and the hash maps are equal
as maps — same algorithms and same values.  (When one map carries
algorithms the other lacks, the hash diff is non-empty and the type is
integrity instead, as the counterexample shows.) -/
theorem drift_metadata_when_hash_maps_equal (b a : Component)
    (hb : (b.hashes.map Prod.fst).Nodup) (ha : (a.hashes.map Prod.fst).Nodup)
    (hv : b.version = a.version)
    (hh : ∀ k, b.hashes.lookup k = a.hashes.lookup k)
    (hl : (∃ l ∈ a.licenses, l ∉ b.licenses) ∨ (∃ l ∈ b.licenses, l ∉ a.licenses)) :
    (ClassifyDrift b a).typ = DriftTypeMetadata := by
  have hIsE : (DiffHashes b.hashes a.hashes).IsEmpty = true :=
    (DiffHashes_IsEmpty_iff b.hashes a.hashes hb ha).mpr hh
  have hES : ¬ (EqualSlices b.licenses a.licenses = true) := by
    intro hE
    rcases hl with ⟨l, hla, hlb⟩ | ⟨l, hlb, hla⟩
    · exact hlb ((mem_iff_of_EqualSlices _ _ hE l).mpr hla)
    · exact hla ((mem_iff_of_EqualSlices _ _ hE l).mp hlb)
  have h3 : (if ¬ (EqualSlices b.licenses a.licenses = true) then
      (a.licenses.dedup.filter (fun lic => ¬ lic ∈ b.licenses)).map
        (fun lic => '+' :: lic) ++
      (b.licenses.dedup.filter (fun lic => ¬ lic ∈ a.licenses)).map
        (fun lic => '-' :: lic)
    else []).length > 0 := by
    rw [if_pos hES]
    rcases hl with ⟨l, hla, hlb⟩ | ⟨l, hlb, hla⟩
    · have hm : ('+' :: l) ∈
          (a.licenses.dedup.filter (fun lic => ¬ lic ∈ b.licenses)).map
            (fun lic => '+' :: lic) :=
        List.mem_map_of_mem _
          (List.mem_filter.mpr ⟨List.mem_dedup.mpr hla, by simpa using hlb⟩)
      exact List.length_pos.mpr (List.ne_nil_of_mem (List.mem_append_left _ hm))
    · have hm : ('-' :: l) ∈
          (b.licenses.dedup.filter (fun lic => ¬ lic ∈ a.licenses)).map
            (fun lic => '-' :: lic) :=
        List.mem_map_of_mem _
          (List.mem_filter.mpr ⟨List.mem_dedup.mpr hlb, by simpa using hla⟩)
      exact List.length_pos.mpr (List.ne_nil_of_mem (List.mem_append_right _ hm))
  unfold ClassifyDrift
  rw [if_neg (fun hc => hc.1 hIsE), if_neg (fun hc => hc hv), if_pos h3]

/-- Witness for the amended C3: equal hash maps, equal version, licenses
`MIT` vs `Apache-2.0` classify as metadata drift. -/
theorem drift_metadata_when_hash_maps_equal_witness :
    (ClassifyDrift
        { name := gs "x", version := gs "1.0", hashes := [(gs "SHA256", gs "aa")],
          licenses := [gs "MIT"] }
        { name := gs "x", version := gs "1.0", hashes := [(gs "SHA256", gs "aa")],
          licenses := [gs "Apache-2.0"] }).typ = DriftTypeMetadata :=
  drift_metadata_when_hash_maps_equal _ _ (by decide) (by decide) rfl (fun k => rfl)
    (Or.inl (by decide))

/-! ### Duplicate detection (`internal/analysis/stats.go`) -/

/-- `analysis.DuplicateGroup`. -/
structure DuplicateGroup where
  id : GoStr
  name : GoStr
  versions : List GoStr
  components : List Component
  deriving DecidableEq, Repr

/-- One step of building Go's `map[string][]Component` group map: append the
component to its identity's bucket, creating the bucket if absent. -/
def upsertGroup : List (GoStr × List Component) → Component → List (GoStr × List Component)
  | [], c => [(c.id, [c])]
  | (k, cs) :: rest, c =>
    if k = c.id then (k, cs ++ [c]) :: rest else (k, cs) :: upsertGroup rest c

/-- The `groups` map of `DetectDuplicates` / `DetectCollisions`: buckets by
identity, keyed in first-appearance order (Go iterates the map in an
unspecified order; every use below either sorts afterwards or is
order-insensitive). -/
def groupByID (comps : List Component) : List (GoStr × List Component) :=
  comps.foldl upsertGroup []

/-- The version-collection loop of `DetectDuplicates`: distinct versions in
first-appearance order (the `seen` set). -/
def collectVersions : List Component → List GoStr → List GoStr
  | [], _ => []
  | c :: cs, seen =>
    if c.version ∈ seen then collectVersions cs seen
    else c.version :: collectVersions cs (c.version :: seen)

/-- `analysis.DetectDuplicates`: identities with ≥ 2 components, with the
sorted distinct versions, sorted by identity. -/
def DetectDuplicates (comps : List Component) : List DuplicateGroup :=
  let groups := groupByID comps
  let dups := groups.filterMap (fun g =>
    if g.2.length > 1 then
      some { id := g.1,
             name := (g.2.headD default).name,
             versions := (collectVersions g.2 []).insertionSort
               (fun u v => goStrLe u v = true),
             components := g.2 }
    else none)
  dups.insertionSort (fun u v => goStrLe u.id v.id = true)

/-- `analysis.DuplicateVersionDiff`.  The Go maps
`versions_added`/`versions_removed` are association lists here; a key is
present exactly when at least one version was appended for it. -/
structure DuplicateVersionDiff where
  versionsAdded : List (GoStr × List GoStr)
  versionsRemoved : List (GoStr × List GoStr)
  newDuplicates : List DuplicateGroup
  resolvedDuplicates : List DuplicateGroup
  deriving DecidableEq, Repr

/-- `analysis.DiffDuplicateVersions`: compare duplicate-group lists.  The
group lists come from `DetectDuplicates` and carry one group per identity,
so first-match lookup models Go's map indexing. -/
def DiffDuplicateVersions (before after : List DuplicateGroup) : DuplicateVersionDiff :=
  let versionsAdded := after.filterMap (fun ag =>
    match before.find? (fun bg => bg.id == ag.id) with
    | some bg =>
      let added := ag.versions.filter (fun v => ¬ v ∈ bg.versions)
      if added ≠ [] then
        some (ag.id, added.insertionSort (fun u v => goStrLe u v = true))
      else none
    | none => none)
  let versionsRemoved := after.filterMap (fun ag =>
    match before.find? (fun bg => bg.id == ag.id) with
    | some bg =>
      let removed := bg.versions.filter (fun v => ¬ v ∈ ag.versions)
      if removed ≠ [] then
        some (ag.id, removed.insertionSort (fun u v => goStrLe u v = true))
      else none
    | none => none)
  let newDups := (after.filter (fun ag =>
    (before.find? (fun bg => bg.id == ag.id)).isNone)).insertionSort
      (fun u v => goStrLe u.id v.id = true)
  let resolved := (before.filter (fun bg =>
    (after.find? (fun ag => ag.id == bg.id)).isNone)).insertionSort
      (fun u v => goStrLe u.id v.id = true)
  { versionsAdded := versionsAdded, versionsRemoved := versionsRemoved,
    newDuplicates := newDups, resolvedDuplicates := resolved }

/-- Counterexample to C4: `before` has lodash at 4.17.20 and 4.17.21,
`after` has a single lodash at 4.17.21.  `DetectDuplicates after` then has
no lodash group at all, so the code reports the whole group as resolved and
records no removed versions — the claim's expected output
(`versions_removed[lodash] = ["4.17.20"]`, `resolved_duplicates` empty) is
false. -/
theorem duplicate_resolution_counterexample :
    ¬ ((DiffDuplicateVersions
          (DetectDuplicates
            [{ id := gs "lodash", name := gs "lodash", version := gs "4.17.20" },
             { id := gs "lodash", name := gs "lodash", version := gs "4.17.21" }])
          (DetectDuplicates
            [{ id := gs "lodash", name := gs "lodash", version := gs "4.17.21" }])).versionsRemoved.lookup
            (gs "lodash") = some [gs "4.17.20"] ∧
       (DiffDuplicateVersions
          (DetectDuplicates
            [{ id := gs "lodash", name := gs "lodash", version := gs "4.17.20" },
             { id := gs "lodash", name := gs "lodash", version := gs "4.17.21" }])
          (DetectDuplicates
            [{ id := gs "lodash", name := gs "lodash", version := gs "4.17.21" }])).newDuplicates = [] ∧
       (DiffDuplicateVersions
          (DetectDuplicates
            [{ id := gs "lodash", name := gs "lodash", version := gs "4.17.20" },
             { id := gs "lodash", name := gs "lodash", version := gs "4.17.21" }])
          (DetectDuplicates
            [{ id := gs "lodash", name := gs "lodash", version := gs "4.17.21" }])).resolvedDuplicates = []) := by
  decide

/-- C4 amended: in that scenario the code emits no removed versions and no
new duplicates, and reports the before-side lodash group (both versions) as
a resolved duplicate, because the group no longer qualifies as a duplicate
in `after`. -/
theorem duplicate_resolution_amended :
    (DiffDuplicateVersions
        (DetectDuplicates
          [{ id := gs "lodash", name := gs "lodash", version := gs "4.17.20" },
           { id := gs "lodash", name := gs "lodash", version := gs "4.17.21" }])
        (DetectDuplicates
          [{ id := gs "lodash", name := gs "lodash", version := gs "4.17.21" }])) =
      { versionsAdded := [],
        versionsRemoved := [],
        newDuplicates := [],
        resolvedDuplicates :=
          [{ id := gs "lodash", name := gs "lodash",
             versions := [gs "4.17.20", gs "4.17.21"],
             components :=
               [{ id := gs "lodash", name := gs "lodash", version := gs "4.17.20" },
                { id := gs "lodash", name := gs "lodash", version := gs "4.17.21" }] }] } := by
  decide

/-! ### CycloneDX ingest (`internal/sbom/cyclonedx.go`) -/

/-- The fields the CycloneDX parser reads from one decoded `cdx.Component`
in the `ParseCycloneDX` loop body.  `licenses` holds the license IDs of the
licence-choice entries (empty when the entry has none), `hashes` the
(algorithm, value) pairs, `raw` the component's original JSON span. -/
structure CdxComponent where
  name : GoStr := []
  version : GoStr := []
  purl : GoStr := []
  cpe : GoStr := []
  licenses : List GoStr := []
  hashes : List (GoStr × GoStr) := []
  bomRef : GoStr := []
  group : GoStr := []
  supplierName : GoStr := []
  raw : GoStr := []
  deriving DecidableEq, Repr, Inhabited

/-- The `ParseCycloneDX` loop body: populate the canonical fields, then
compute the identity from the populated component.  The Go guards
(`c.PackageURL != ""`, supplier non-nil) only skip assigning a zero value
over a zero value, which is the identity. -/
def cdxToComponent (c : CdxComponent) : Component :=
  let comp : Component :=
    { name := c.name
      version := c.version
      hashes := c.hashes
      bomRef := c.bomRef
      nspace := c.group
      purl := c.purl
      cpes := if c.cpe ≠ [] then [c.cpe] else []
      licenses := c.licenses.filter (fun lic => lic ≠ [])
      supplier := c.supplierName
      rawJson := c.raw }
  { comp with id := computeComponentID comp }

/-- `sbom.ParseCycloneDX` after JSON decoding: every decoded component is
converted and appended, unconditionally. -/
def ParseCycloneDX (comps : List CdxComponent) : List Component :=
  comps.map cdxToComponent

/-- Counterexample to C5: a CycloneDX component with every identifier and
the name empty is not dropped by ingest — it is kept with identity `""`,
and normalization leaves the identity empty as well.  No `EmptyIdentity`
warning mechanism exists in the code. -/
theorem empty_identity_counterexample :
    (ParseCycloneDX [({} : CdxComponent)]).length = 1 ∧
    (ParseCycloneDX [({} : CdxComponent)]).map Component.id = [[]] ∧
    (NormalizeComponents (ParseCycloneDX [({} : CdxComponent)])).map Component.id = [[]] := by
  decide

/-- C5 amended: ingest never drops a component — the output has exactly one
component per input component — and a component with empty PURL, no CPE,
empty bom_ref, spdx_id, namespace and name is kept with the empty identity,
before and after normalization. -/
theorem ingest_keeps_empty_identity (cs : List CdxComponent) :
    (ParseCycloneDX cs).length = cs.length ∧
    (ParseCycloneDX [({} : CdxComponent)]).map Component.id = [[]] ∧
    (NormalizeComponents (ParseCycloneDX [({} : CdxComponent)])).map Component.id = [[]] :=
  ⟨List.length_map _ _, by decide, by decide⟩

/-! ### Collision detection (`internal/analysis/stats.go`, `drift.go`) -/

/-- `analysis.Collision`. -/
structure Collision where
  id : GoStr
  reason : GoStr
  components : List Component
  deriving DecidableEq, Repr

/-- The inner hash loop of `DetectCollisions` for one component: walk its
(algorithm, value) pairs against the accumulated `versionHashes` state
(keyed by (version, algorithm)); on the first conflicting value stop — the
Go `break` — reporting a mismatch; otherwise record the pair. -/
def scanHashes (version : GoStr) :
    List (GoStr × GoStr) → List ((GoStr × GoStr) × GoStr) →
      Bool × List ((GoStr × GoStr) × GoStr)
  | [], vh => (false, vh)
  | (algo, hash) :: rest, vh =>
    match vh.lookup (version, algo) with
    | some existing =>
      if existing ≠ hash then (true, vh)
      else scanHashes version rest vh
    | none => scanHashes version rest (vh ++ [((version, algo), hash)])

/-- The per-component hash loop of `DetectCollisions`: components with no
hashes are skipped; each component whose scan hits a conflict appends one
`hash_mismatch` collision.  The `break` exits only the inner loop, so the
outer loop continues with the next component. -/
def hashScan (id : GoStr) (components : List Component) :
    List Component → List ((GoStr × GoStr) × GoStr) → List Collision
  | [], _ => []
  | c :: cs, vh =>
    if c.hashes.length = 0 then hashScan id components cs vh
    else
      match scanHashes c.version c.hashes vh with
      | (mismatch, vh') =>
        if mismatch then
          { id := id, reason := gs "hash_mismatch", components := components } ::
            hashScan id components cs vh'
        else hashScan id components cs vh'

/-- The per-group body of `DetectCollisions`: groups of size < 2 are
skipped; a name mismatch reports once and short-circuits the hash
inspection (`continue`); otherwise the hash scan runs with fresh state. -/
def collideGroup (id : GoStr) (components : List Component) : List Collision :=
  if components.length < 2 then []
  else if (components.map Component.name).dedup.length > 1 then
    [{ id := id, reason := gs "name_mismatch", components := components }]
  else hashScan id components components []

/-- `analysis.DetectCollisions`: run the group body over the identity
groups and sort by identity. -/
def DetectCollisions (comps : List Component) : List Collision :=
  ((groupByID comps).flatMap (fun g => collideGroup g.1 g.2)).insertionSort
    (fun u v => goStrLe u.id v.id = true)

/-- The collision de-duplication loop at the end of `DiffComponents`: keep
only the first collision for each `ID + ":" + Reason` key. -/
def dedupCollisions : List Collision → List GoStr → List Collision
  | [], _ => []
  | c :: cs, seen =>
    let key := c.id ++ gs ":" ++ c.reason
    if key ∈ seen then dedupCollisions cs seen
    else c :: dedupCollisions cs (key :: seen)

/-- Counterexample to C6: three components sharing identity `x`, the same
name and version, with pairwise different SHA256 values.  The hash-mismatch
`break` only leaves the inner loop, so `DetectCollisions` emits two
`hash_mismatch` collisions for this single identity group. -/
theorem collision_once_counterexample :
    (DetectCollisions
      [{ id := gs "x", name := gs "n", version := gs "1",
         hashes := [(gs "SHA256", gs "a")] },
       { id := gs "x", name := gs "n", version := gs "1",
         hashes := [(gs "SHA256", gs "b")] },
       { id := gs "x", name := gs "n", version := gs "1",
         hashes := [(gs "SHA256", gs "c")] }]).map Collision.reason =
      [gs "hash_mismatch", gs "hash_mismatch"] := by
  decide

theorem dedupCollisions_nodup_aux (colls : List Collision) (seen : List GoStr) :
    (((dedupCollisions colls seen).map (fun c => c.id ++ gs ":" ++ c.reason)).Nodup) ∧
    ∀ k ∈ (dedupCollisions colls seen).map (fun c => c.id ++ gs ":" ++ c.reason),
      k ∉ seen := by
  induction colls generalizing seen with
  | nil => simp [dedupCollisions]
  | cons c cs ih =>
    unfold dedupCollisions
    by_cases h : c.id ++ gs ":" ++ c.reason ∈ seen
    · rw [if_pos h]
      exact (ih seen)
    · rw [if_neg h]
      have ihx := ih ((c.id ++ gs ":" ++ c.reason) :: seen)
      refine ⟨?_, ?_⟩
      · simp only [List.map_cons, List.nodup_cons]
        refine ⟨fun hm => ?_, ihx.1⟩
        exact (ihx.2 _ hm) (List.mem_cons_self _ _)
      · intro k hk
        simp only [List.map_cons, List.mem_cons] at hk
        rcases hk with hk | hk
        · rw [hk]; exact h
        · intro hks
          exact (ihx.2 k hk) (List.mem_cons_of_mem _ hks)

/-- C6 amended: the de-duplicated collision report of `DiffComponents`
contains at most one collision per `(identity, reason)` key, and within one
group a name mismatch suppresses hash inspection, producing exactly the one
`name_mismatch` collision.  (`DetectCollisions` itself may emit several
`hash_mismatch` collisions for one group, as the counterexample shows.) -/
theorem collision_once_amended :
    (∀ colls : List Collision,
      ((dedupCollisions colls []).map (fun c => c.id ++ gs ":" ++ c.reason)).Nodup) ∧
    (∀ (id : GoStr) (comps : List Component), 2 ≤ comps.length →
      (comps.map Component.name).dedup.length > 1 →
      collideGroup id comps =
        [{ id := id, reason := gs "name_mismatch", components := comps }]) := by
  refine ⟨fun colls => (dedupCollisions_nodup_aux colls []).1, ?_⟩
  intro id comps hlen hnames
  unfold collideGroup
  rw [if_neg (by omega), if_pos hnames]

/-- Witness for the amended C6 at concrete inputs: de-duplication of a
doubled collision list yields distinct keys, and a two-component group with
different names yields exactly one `name_mismatch` collision. -/
theorem collision_once_amended_witness :
    ((dedupCollisions
        [{ id := gs "x", reason := gs "hash_mismatch", components := [] },
         { id := gs "x", reason := gs "hash_mismatch", components := [] }] []).map
      (fun c => c.id ++ gs ":" ++ c.reason)).Nodup ∧
    collideGroup (gs "x")
      [{ id := gs "x", name := gs "n1" }, { id := gs "x", name := gs "n2" }] =
      [{ id := gs "x", reason := gs "name_mismatch",
         components := [{ id := gs "x", name := gs "n1" },
                        { id := gs "x", name := gs "n2" }] }] :=
  ⟨collision_once_amended.1 _,
   collision_once_amended.2 (gs "x") _ (by decide) (by decide)⟩

/-! ### Dependency graph reachability (graph part of the analysis package) -/

/-- Adjacency map: identity → ordered dependency targets. -/
abbrev Graph := List (GoStr × List GoStr)

/-- `graph[current]`: Go map indexing yields the nil slice for an absent
key. -/
def graphDeps (g : Graph) (k : GoStr) : List GoStr := (g.lookup k).getD []

/-- Total number of edges, used to bound BFS fuel. -/
def totalEdges (g : Graph) : Nat := (g.map (fun p => p.2.length)).sum

/-- `analysis.TransitiveDep`; `depth` is a Go `int` (`bfsWithPath` returns
−1 for unreachable targets). -/
structure TransitiveDep where
  target : GoStr
  via : List GoStr
  depth : Int
  deriving DecidableEq, Repr

/-- `analysis.DepthSummary`. -/
structure DepthSummary where
  depth1 : Nat := 0
  depth2 : Nat := 0
  depth3Plus : Nat := 0
  deriving DecidableEq, Repr

/-- The neighbour scan of one `bfsWithPath` iteration: for each dependency
of the current node build the extended path; return it if the target is
hit, otherwise collect queue entries for unvisited nodes, in order. -/
def bfsInner (target : GoStr) (path : List GoStr) :
    List GoStr → List GoStr → Sum (List GoStr) (List (GoStr × List GoStr))
  | [], _ => Sum.inr []
  | dep :: deps, visited =>
    let newPath := path ++ [dep]
    if dep = target then Sum.inl newPath
    else if dep ∈ visited then bfsInner target path deps visited
    else match bfsInner target path deps visited with
      | Sum.inl found => Sum.inl found
      | Sum.inr entries => Sum.inr ((dep, newPath) :: entries)

/-- The queue loop of `analysis.bfsWithPath`.  The Go loop terminates
because every iteration pops one entry and entries are enqueued at most
once per scanned edge; the embedding makes that bound explicit as fuel,
which the caller sets high enough that it cannot run out. -/
def bfsLoop (graph : Graph) (target : GoStr) :
    Nat → List (GoStr × List GoStr) → List GoStr → Option (List GoStr)
  | 0, _, _ => none
  | _ + 1, [], _ => none
  | fuel + 1, (cur, path) :: queue, visited =>
    if cur ∈ visited then bfsLoop graph target fuel queue visited
    else
      match bfsInner target path (graphDeps graph cur) (cur :: visited) with
      | Sum.inl found => some found
      | Sum.inr entries => bfsLoop graph target fuel (queue ++ entries) (cur :: visited)

/-- `analysis.bfsWithPath`: shortest path from `start` to `target` and its
depth (path length − 1); `([], −1)` when unreachable. -/
def bfsWithPath (graph : Graph) (start target : GoStr) : List GoStr × Int :=
  if start = target then ([], 0)
  else
    match bfsLoop graph target (totalEdges graph + 2) [(start, [start])] [] with
    | some path => (path, (path.length : Int) - 1)
    | none => ([], -1)

/-- The queue loop of `analysis.bfsReachable`, with the same fuel
convention as `bfsLoop`. -/
def bfsReachLoop (graph : Graph) : Nat → List GoStr → List GoStr → List GoStr
  | 0, _, visited => visited
  | _ + 1, [], visited => visited
  | fuel + 1, cur :: queue, visited =>
    if cur ∈ visited then bfsReachLoop graph fuel queue visited
    else bfsReachLoop graph fuel
      (queue ++ (graphDeps graph cur).filter (fun dep => ¬ dep ∈ visited))
      (visited ++ [cur])

/-- `analysis.bfsReachable`: nodes reachable from `start`, with `start`
itself removed at the end. -/
def bfsReachable (graph : Graph) (start : GoStr) : List GoStr :=
  (bfsReachLoop graph (totalEdges graph + 2) [start] []).filter (fun n => n ≠ start)

/-- `analysis.computeAllReachable`. -/
def computeAllReachable (graph : Graph) : List (GoStr × List GoStr) :=
  graph.map (fun p => (p.1, bfsReachable graph p.1))

/-- `analysis.FindRoots`: keys that are never a dependency target, sorted. -/
def FindRoots (graph : Graph) : List GoStr :=
  let isDep := graph.flatMap (fun p => p.2)
  ((graph.map Prod.fst).filter (fun node => ¬ node ∈ isDep)).insertionSort
    (fun u v => goStrLe u v = true)

/-- The per-root scan of `diffReachability`: for each element of this
root's reach set in one graph that is absent from the other graph's reach
set and not yet seen, compute the shortest path and report it when its
depth exceeds 1 (marking it seen). -/
def scanNewDeps (g : Graph) (root : GoStr) (otherSet : List GoStr) :
    List GoStr → List GoStr → List TransitiveDep × List GoStr
  | [], seen => ([], seen)
  | dep :: ds, seen =>
    if ¬ dep ∈ otherSet ∧ ¬ dep ∈ seen then
      let pd := bfsWithPath g root dep
      if pd.2 > 1 then
        let r := scanNewDeps g root otherSet ds (dep :: seen)
        ({ target := dep, via := pd.1, depth := pd.2 } :: r.1, r.2)
      else scanNewDeps g root otherSet ds seen
    else scanNewDeps g root otherSet ds seen

/-- The root loop of `diffReachability`: the `seen` set persists across
roots (first discovery wins). -/
def collectTransitive (g : Graph) (reachOther reachSelf : List (GoStr × List GoStr)) :
    List GoStr → List GoStr → List TransitiveDep
  | [], _ => []
  | root :: roots, seen =>
    let selfSet := (reachSelf.lookup root).getD []
    let otherSet := (reachOther.lookup root).getD []
    let r := scanNewDeps g root otherSet selfSet seen
    r.1 ++ collectTransitive g reachOther reachSelf roots r.2

/-- `analysis.diffReachability`: new and lost transitive dependencies,
found from the root sets (all nodes when a graph has no roots), sorted by
target. -/
def diffReachability (before after : Graph)
    (beforeReach afterReach : List (GoStr × List GoStr)) :
    List TransitiveDep × List TransitiveDep :=
  let afterRoots := let r := FindRoots after
    if r = [] then after.map Prod.fst else r
  let newDeps := collectTransitive after beforeReach afterReach afterRoots []
  let beforeRoots := let r := FindRoots before
    if r = [] then before.map Prod.fst else r
  let lostDeps := collectTransitive before afterReach beforeReach beforeRoots []
  (newDeps.insertionSort (fun u v => goStrLe u.target v.target = true),
   lostDeps.insertionSort (fun u v => goStrLe u.target v.target = true))

/-- `analysis.computeDepthSummary`: bucket new transitive deps by depth
(`switch` with cases 1, 2 and default). -/
def computeDepthSummary (deps : List TransitiveDep) : DepthSummary :=
  deps.foldl (fun summary dep =>
    if dep.depth = 1 then { summary with depth1 := summary.depth1 + 1 }
    else if dep.depth = 2 then { summary with depth2 := summary.depth2 + 1 }
    else { summary with depth3Plus := summary.depth3Plus + 1 }) {}

theorem scanNewDeps_depth (g : Graph) (root : GoStr) (otherSet : List GoStr)
    (ds seen : List GoStr) :
    ∀ d ∈ (scanNewDeps g root otherSet ds seen).1, 1 < d.depth := by
  induction ds generalizing seen with
  | nil => intro d hd; simp [scanNewDeps] at hd
  | cons dep rest ih =>
    intro d hd
    unfold scanNewDeps at hd
    by_cases hc : ¬ dep ∈ otherSet ∧ ¬ dep ∈ seen
    · rw [if_pos hc] at hd
      by_cases hdep : (bfsWithPath g root dep).2 > 1
      · rw [if_pos hdep] at hd
        rcases List.mem_cons.mp hd with hd | hd
        · rw [hd]
          exact hdep
        · exact ih (dep :: seen) d hd
      · rw [if_neg hdep] at hd
        exact ih seen d hd
    · rw [if_neg hc] at hd
      exact ih seen d hd

theorem collectTransitive_depth (g : Graph)
    (reachOther reachSelf : List (GoStr × List GoStr)) (roots seen : List GoStr) :
    ∀ d ∈ collectTransitive g reachOther reachSelf roots seen, 1 < d.depth := by
  induction roots generalizing seen with
  | nil => intro d hd; simp [collectTransitive] at hd
  | cons root rest ih =>
    intro d hd
    unfold collectTransitive at hd
    rcases List.mem_append.mp hd with hd | hd
    · exact scanNewDeps_depth g root ((reachOther.lookup root).getD [])
        ((reachSelf.lookup root).getD []) seen d hd
    · exact ih _ d hd

theorem computeDepthSummary_no_depth1 (deps : List TransitiveDep)
    (h : ∀ d ∈ deps, d.depth ≠ 1) : (computeDepthSummary deps).depth1 = 0 := by
  suffices hgen : ∀ acc : DepthSummary,
      (deps.foldl (fun summary dep =>
        if dep.depth = 1 then { summary with depth1 := summary.depth1 + 1 }
        else if dep.depth = 2 then { summary with depth2 := summary.depth2 + 1 }
        else { summary with depth3Plus := summary.depth3Plus + 1 }) acc).depth1 =
      acc.depth1 by
    exact hgen {}
  induction deps with
  | nil => intro acc; rfl
  | cons d rest ih =>
    intro acc
    have hd1 : d.depth ≠ 1 := h d (List.mem_cons_self _ _)
    rw [List.foldl_cons, if_neg hd1]
    by_cases h2 : d.depth = 2
    · rw [if_pos h2]
      exact ih (fun x hx => h x (List.mem_cons_of_mem _ hx)) _
    · rw [if_neg h2]
      exact ih (fun x hx => h x (List.mem_cons_of_mem _ hx)) _

/-- C7. For every pair of dependency graphs (and any per-root reachability
maps, in particular the computed ones), every entry of the reachability
diff's `transitive_new` list has depth ≥ 2, and the depth summary computed
from that list has `depth_1 = 0` (depth-2 entries land in `depth_2`,
deeper ones in `depth_3_plus`). -/
theorem transitive_new_depth (before after : Graph)
    (beforeReach afterReach : List (GoStr × List GoStr)) :
    (∀ d ∈ (diffReachability before after beforeReach afterReach).1, 2 ≤ d.depth) ∧
    (computeDepthSummary
      (diffReachability before after beforeReach afterReach).1).depth1 = 0 := by
  have hbase : ∀ d ∈ (diffReachability before after beforeReach afterReach).1,
      1 < d.depth := by
    intro d hd
    unfold diffReachability at hd
    simp only [] at hd
    have hperm := List.perm_insertionSort
      (fun u v => goStrLe u.target v.target = true)
      (collectTransitive after beforeReach afterReach
        (if FindRoots after = [] then after.map Prod.fst else FindRoots after) [])
    exact collectTransitive_depth after beforeReach afterReach _ [] d (hperm.mem_iff.mp hd)
  refine ⟨fun d hd => hbase d hd, ?_⟩
  exact computeDepthSummary_no_depth1 _ (fun d hd => by have := hbase d hd; omega)

/-! ### Policy evaluation (policy part of the main module) -/

/-- `analysis.DriftSummary`. -/
structure DriftSummary where
  versionDrift : Nat := 0
  integrityDrift : Nat := 0
  metadataDrift : Nat := 0
  deriving DecidableEq, Repr

/-- `analysis.ChangedComponent`. -/
structure ChangedComponent where
  id : GoStr := []
  name : GoStr := []
  before : Component := {}
  after : Component := {}
  changes : List GoStr := []
  drift : Option DriftInfo := none
  deriving DecidableEq, Repr

/-- `analysis.DependencyDiff` (edge diffs plus transitive analysis). -/
structure DependencyDiff where
  addedDeps : List (GoStr × List GoStr) := []
  removedDeps : List (GoStr × List GoStr) := []
  transitiveNew : List TransitiveDep := []
  transitiveLost : List TransitiveDep := []
  depthSummary : Option DepthSummary := none
  deriving DecidableEq, Repr

/-- `analysis.DuplicateReport`. -/
structure DuplicateReport where
  before : List DuplicateGroup := []
  after : List DuplicateGroup := []
  versionDiff : Option DuplicateVersionDiff := none
  collisions : List Collision := []
  deriving DecidableEq, Repr

/-- `analysis.DiffResult`. -/
structure DiffResult where
  added : List Component := []
  removed : List Component := []
  changed : List ChangedComponent := []
  duplicates : Option DuplicateReport := none
  dependencies : Option DependencyDiff := none
  driftSummary : Option DriftSummary := none
  deriving DecidableEq, Repr

/-- `policy.Policy`: numeric limits are Go `int`s that decode to 0 when the
JSON field is absent. -/
structure Policy where
  maxAdded : Int := 0
  maxRemoved : Int := 0
  maxChanged : Int := 0
  denyLicenses : List GoStr := []
  requireLicenses : Bool := false
  denyDuplicates : Bool := false
  denyIntegrityDrift : Bool := false
  maxDepth : Int := 0
  warnSupplierChange : Bool := false
  warnNewTransitive : Bool := false
  deriving DecidableEq, Repr

/-- Severity string constants. -/
def SeverityError : GoStr := gs "error"

def SeverityWarning : GoStr := gs "warning"

/-- `policy.Violation`. -/
structure Violation where
  rule : GoStr
  message : GoStr
  severity : GoStr
  deriving DecidableEq, Repr

/-- `policy.Evaluate`: the ten rule blocks, in source order, each appending
its violations.  Numeric message fragments use `toString`; the exact
`fmt.Sprintf` renderings are abbreviated where they embed `%v` values. -/
def Evaluate (policy : Policy) (result : DiffResult) : List Violation :=
  let v1 := if policy.maxAdded > 0 ∧ (result.added.length : Int) > policy.maxAdded then
    [{ rule := gs "max_added",
       message := gs "too many components added: " ++ gs (toString result.added.length) ++
         gs " > " ++ gs (toString policy.maxAdded),
       severity := SeverityError }] else []
  let v2 := if policy.maxRemoved > 0 ∧ (result.removed.length : Int) > policy.maxRemoved then
    [{ rule := gs "max_removed",
       message := gs "too many components removed: " ++ gs (toString result.removed.length) ++
         gs " > " ++ gs (toString policy.maxRemoved),
       severity := SeverityError }] else []
  let v3 := if policy.maxChanged > 0 ∧ (result.changed.length : Int) > policy.maxChanged then
    [{ rule := gs "max_changed",
       message := gs "too many components changed: " ++ gs (toString result.changed.length) ++
         gs " > " ++ gs (toString policy.maxChanged),
       severity := SeverityError }] else []
  let v4 := if policy.denyLicenses.length > 0 then
    result.added.flatMap (fun comp => comp.licenses.filterMap (fun lic =>
      if lic ∈ policy.denyLicenses then
        some { rule := gs "deny_licenses",
               message := gs "component " ++ comp.name ++ gs " has denied license: " ++ lic,
               severity := SeverityError }
      else none)) else []
  let v5 := if policy.requireLicenses then
    result.added.filterMap (fun comp =>
      if comp.licenses.length = 0 then
        some { rule := gs "require_licenses",
               message := gs "component " ++ comp.name ++ gs " has no license",
               severity := SeverityError }
      else none) else []
  let v6 := if policy.denyDuplicates then
    match result.duplicates with
    | some dup =>
      if dup.after.length > 0 then
        [{ rule := gs "deny_duplicates",
           message := gs "found " ++ gs (toString dup.after.length) ++
             gs " duplicate components in result",
           severity := SeverityError }] else []
    | none => [] else []
  let v7 := if policy.denyIntegrityDrift then
    match result.driftSummary with
    | some summary =>
      if summary.integrityDrift > 0 then
        result.changed.filterMap (fun changed =>
          match changed.drift with
          | some d =>
            if d.typ = DriftTypeIntegrity then
              some { rule := gs "deny_integrity_drift",
                     message := gs "component " ++ changed.name ++
                       gs " has hash change without version change (potential supply chain attack)",
                     severity := SeverityError }
            else none
          | none => none) else []
    | none => [] else []
  let v8 := if policy.maxDepth > 0 then
    match result.dependencies with
    | some deps =>
      match deps.depthSummary with
      | some _ =>
        let violatingDeps := deps.transitiveNew.filterMap (fun td =>
          if td.depth ≥ policy.maxDepth then
            some (td.target ++ gs " (depth " ++ gs (toString td.depth) ++ gs ")")
          else none)
        if violatingDeps.length > 0 then
          [{ rule := gs "max_depth",
             message := gs "new transitive dependencies at depth >= " ++
               gs (toString policy.maxDepth),
             severity := SeverityError }] else []
      | none => []
    | none => [] else []
  let v9 := if policy.warnSupplierChange then
    result.changed.filterMap (fun changed =>
      if changed.before.supplier ≠ changed.after.supplier ∧
          (changed.before.supplier ≠ [] ∨ changed.after.supplier ≠ []) then
        some { rule := gs "warn_supplier_change",
               message := gs "component " ++ changed.name ++ gs " supplier changed",
               severity := SeverityWarning }
      else none) else []
  let v10 := if policy.warnNewTransitive then
    match result.dependencies with
    | some deps =>
      if deps.transitiveNew.length > 0 then
        [{ rule := gs "warn_new_transitive",
           message := gs "found " ++ gs (toString deps.transitiveNew.length) ++
             gs " new transitive dependencies",
           severity := SeverityWarning }] else []
    | none => [] else []
  v1 ++ v2 ++ v3 ++ v4 ++ v5 ++ v6 ++ v7 ++ v8 ++ v9 ++ v10

/-- `policy.HasErrors`. -/
def HasErrors (violations : List Violation) : Bool :=
  violations.any (fun v => v.severity == SeverityError)

/-- C9. With `max_added = max_removed = max_changed = max_depth = 0`,
policy evaluation emits no `max_added`, `max_removed`, `max_changed` or
`max_depth` violation, whatever the diff contains: zero means unlimited. -/
theorem zero_limits_unlimited (policy : Policy) (result : DiffResult)
    (h1 : policy.maxAdded = 0) (h2 : policy.maxRemoved = 0)
    (h3 : policy.maxChanged = 0) (h4 : policy.maxDepth = 0) :
    ∀ v ∈ Evaluate policy result,
      v.rule ≠ gs "max_added" ∧ v.rule ≠ gs "max_removed" ∧
      v.rule ≠ gs "max_changed" ∧ v.rule ≠ gs "max_depth" := by
  intro v hv
  unfold Evaluate at hv
  rw [h1, h2, h3, h4] at hv
  have hlt : ¬ ((0:Int) > 0) := by omega
  rw [if_neg (fun hc => hlt hc.1), if_neg (fun hc => hlt hc.1),
    if_neg (fun hc => hlt hc.1), if_neg hlt] at hv
  simp only [List.append_assoc, List.nil_append] at hv
  have hdone : ∀ r : GoStr,
      r = gs "deny_licenses" ∨ r = gs "require_licenses" ∨ r = gs "deny_duplicates" ∨
      r = gs "deny_integrity_drift" ∨ r = gs "warn_supplier_change" ∨
      r = gs "warn_new_transitive" →
      r ≠ gs "max_added" ∧ r ≠ gs "max_removed" ∧ r ≠ gs "max_changed" ∧
      r ≠ gs "max_depth" := by
    intro r hr
    rcases hr with rfl | rfl | rfl | rfl | rfl | rfl <;>
      exact ⟨by decide, by decide, by decide, by decide⟩
  apply hdone
  rcases List.mem_append.mp hv with hv | hv
  · left
    split at hv
    · simp only [List.mem_flatMap, List.mem_filterMap] at hv
      obtain ⟨comp, _, lic, _, heq⟩ := hv
      split at heq
      · rw [← Option.some.inj heq]
      · exact absurd heq (by simp)
    · simp at hv
  rcases List.mem_append.mp hv with hv | hv
  · right; left
    split at hv
    · simp only [List.mem_filterMap] at hv
      obtain ⟨comp, _, heq⟩ := hv
      split at heq
      · rw [← Option.some.inj heq]
      · exact absurd heq (by simp)
    · simp at hv
  rcases List.mem_append.mp hv with hv | hv
  · right; right; left
    split at hv
    · split at hv
      · split at hv
        · rw [List.mem_singleton.mp hv]
        · simp at hv
      · simp at hv
    · simp at hv
  rcases List.mem_append.mp hv with hv | hv
  · right; right; right; left
    split at hv
    · split at hv
      · split at hv
        · simp only [List.mem_filterMap] at hv
          obtain ⟨changed, _, heq⟩ := hv
          split at heq
          · split at heq
            · rw [← Option.some.inj heq]
            · exact absurd heq (by simp)
          · exact absurd heq (by simp)
        · simp at hv
      · simp at hv
    · simp at hv
  rcases List.mem_append.mp hv with hv | hv
  · right; right; right; right; left
    split at hv
    · simp only [List.mem_filterMap] at hv
      obtain ⟨changed, _, heq⟩ := hv
      split at heq
      · rw [← Option.some.inj heq]
      · exact absurd heq (by simp)
    · simp at hv
  · right; right; right; right; right
    split at hv
    · split at hv
      · split at hv
        · rw [List.mem_singleton.mp hv]
        · simp at hv
      · simp at hv
    · simp at hv

/-- Witness for C9: an all-zero-limit policy with one denied license over a
diff adding one GPL-3.0 component yields a violation whose rule is none of
the `max_*` rules. -/
theorem zero_limits_unlimited_witness :
    ({ rule := gs "deny_licenses",
       message := gs "component " ++ gs "lib2" ++ gs " has denied license: " ++
         gs "GPL-3.0",
       severity := SeverityError } : Violation).rule ≠ gs "max_added" ∧
    ({ rule := gs "deny_licenses",
       message := gs "component " ++ gs "lib2" ++ gs " has denied license: " ++
         gs "GPL-3.0",
       severity := SeverityError } : Violation).rule ≠ gs "max_removed" ∧
    ({ rule := gs "deny_licenses",
       message := gs "component " ++ gs "lib2" ++ gs " has denied license: " ++
         gs "GPL-3.0",
       severity := SeverityError } : Violation).rule ≠ gs "max_changed" ∧
    ({ rule := gs "deny_licenses",
       message := gs "component " ++ gs "lib2" ++ gs " has denied license: " ++
         gs "GPL-3.0",
       severity := SeverityError } : Violation).rule ≠ gs "max_depth" :=
  zero_limits_unlimited { denyLicenses := [gs "GPL-3.0"] }
    { added := [{ name := gs "lib2", licenses := [gs "GPL-3.0"] }] }
    rfl rfl rfl rfl _ (by decide)
